import Mathlib

/-!
Verification of the RACK (Recent ACKnowledgment) loss-detection state tracker
vendored in the repository (gVisor `tcp` package, `rackControl`): a shallow
embedding of `rackControl.update`, `rackControl.detectReorder` and
`rackControl.setDSACKSeen`, together with proofs about their behaviour.

Time values (`time.Time`) and durations (`time.Duration`) are embedded as
`Int` (nanoseconds); `time.Now()` becomes an explicit `now : Int` argument.
Sequence numbers live in the 32-bit modular ring and are kept as `Nat`
values reduced modulo `2^32`.
-/

namespace tcp

/-- Size of the 32-bit TCP sequence-number space. -/
def seqMod : Nat := 4294967296

/-- Half the sequence-number space: the threshold of the modular order. -/
def halfSeq : Nat := 2147483648

/-- Modelled from the spec: the wraparound-safe comparison
`seqnum.Value.LessThan` (the `seqnum` package itself is not among the
sources; the spec requires a dedicated modular `lessThan`). `v` is before
`w` iff the modular difference `v - w` falls in the upper half of the ring,
i.e. the 32-bit value `v - w` is negative as a signed 32-bit integer. -/
def seqLt (v w : Nat) : Prop :=
  halfSeq ≤ (v % seqMod + seqMod - w % seqMod) % seqMod

instance (v w : Nat) : Decidable (seqLt v w) :=
  inferInstanceAs (Decidable (halfSeq ≤ _))

/-- Modelled from the spec: the modular addition `seqnum.Value.Add`. -/
def seqAdd (v s : Nat) : Nat := (v + s) % seqMod

/-- Modelled from the spec: the timestamp-value function
`tcpTimeStamp`/`toTimestampValue` (not among the sources), translating a
local transmit time and the per-connection offset into the 32-bit
timestamp-value space echoed by the peer. -/
def tcpTimeStamp (t : Int) (offset : Nat) : Nat :=
  ((t % (seqMod : Int)).toNat + offset) % seqMod

/-- The timestamp echo information of the acknowledging packet that
`update` reads from `ackSeg.parsedOptions`: `TS` is presence of the
timestamp option, `TSEcr` the echoed timestamp value. -/
structure tcpOptions where
  TS : Bool
  TSEcr : Nat
deriving DecidableEq, Repr

/-- The fields of a `segment` that the RACK code reads: the starting
sequence number, the payload size (`seg.data.Size()`), the latest transmit
time `seg.xmitTime` and the transmit count `seg.xmitCount`. -/
structure segment where
  sequenceNumber : Nat
  dataSize : Nat
  xmitTime : Int
  xmitCount : Nat
deriving DecidableEq, Repr

/-- The per-connection RACK state `rackControl` of rack.go. -/
structure rackControl where
  dsackSeen : Bool
  endSequence : Nat
  fack : Nat
  minRTT : Int
  rtt : Int
  reorderSeen : Bool
  xmitTime : Int
deriving DecidableEq, Repr

/-- The ending sequence number of a segment:
`seg.sequenceNumber.Add(seqnum.Size(seg.data.Size()))`. -/
def endSeqOf (s : segment) : Nat := seqAdd s.sequenceNumber s.dataSize

/-- rack.go `rackControl.update`: updates the RACK fields when an ACK has
been received. `now` is the value of `time.Now()` at the call and `offset`
the connection's timestamp offset. Go's early `return`s become the two
leading `if` branches. -/
def update (rc : rackControl) (seg : segment) (ackSeg : tcpOptions)
    (offset : Nat) (now : Int) : rackControl :=
  let rtt := now - seg.xmitTime
  if seg.xmitCount > 1 ∧ ackSeg.TS = true ∧ ackSeg.TSEcr ≠ 0 ∧
      ackSeg.TSEcr < tcpTimeStamp seg.xmitTime offset then
    rc
  else if seg.xmitCount > 1 ∧ rtt < rc.minRTT then
    rc
  else
    let rc1 := { rc with rtt := rtt }
    let rc2 := if rtt < rc1.minRTT ∨ rc1.minRTT = 0 then
        { rc1 with minRTT := rtt }
      else rc1
    let endSeq := seqAdd seg.sequenceNumber seg.dataSize
    if rc2.xmitTime < seg.xmitTime ∨
        (seg.xmitTime = rc2.xmitTime ∧ seqLt rc2.endSequence endSeq) then
      { rc2 with xmitTime := seg.xmitTime, endSequence := endSeq }
    else
      rc2

/-- rack.go `rackControl.detectReorder`: detects whether packet reordering
has been observed. -/
def detectReorder (rc : rackControl) (seg : segment) : rackControl :=
  let endSeq := seqAdd seg.sequenceNumber seg.dataSize
  if seqLt rc.fack endSeq then
    { rc with fack := endSeq }
  else if seqLt endSeq rc.fack ∧ seg.xmitCount = 1 then
    { rc with reorderSeen := true }
  else
    rc

/-- rack.go `rackControl.setDSACKSeen`: records that a duplicate SACK was
seen by the connection. -/
def setDSACKSeen (rc : rackControl) : rackControl :=
  { rc with dsackSeen := true }

/-- One acknowledged-segment input to the ACK-processing path: the segment,
the acknowledging packet's parsed timestamp option, and the `time.Now()`
value at the corresponding `update` call. -/
structure ackInput where
  seg : segment
  ack : tcpOptions
  now : Int
deriving DecidableEq, Repr

/-- The RTT sample that `update` computes for an input. -/
def sampleOf (i : ackInput) : Int := i.now - i.seg.xmitTime

/-- Applying a sequence of `update` calls. -/
def applyUpdates (offset : Nat) (rc : rackControl) (l : List ackInput) :
    rackControl :=
  l.foldl (fun st i => update st i.seg i.ack offset i.now) rc

/-- The processing of one acknowledged segment in a batch: `update`
followed by `detectReorder` on the same segment, as the ACK-processing
path issues them. -/
def stepAck (offset : Nat) (rc : rackControl) (i : ackInput) : rackControl :=
  detectReorder (update rc i.seg i.ack offset i.now) i.seg

/-- Applying a batch of acknowledged segments (`update` + `detectReorder`
for each). -/
def applyBatch (offset : Nat) (rc : rackControl) (l : List ackInput) :
    rackControl :=
  l.foldl (stepAck offset) rc

/-- Applying a sequence of `detectReorder` calls. -/
def applyDetect (rc : rackControl) (l : List segment) : rackControl :=
  l.foldl detectReorder rc

/-- The spurious-retransmission filter of `update`: an input is accepted
(reaches the state-writing part of `update`) iff neither early `return`
fires. -/
def acceptedQ (rc : rackControl) (seg : segment) (ackSeg : tcpOptions)
    (offset : Nat) (now : Int) : Prop :=
  ¬(seg.xmitCount > 1 ∧ ackSeg.TS = true ∧ ackSeg.TSEcr ≠ 0 ∧
      ackSeg.TSEcr < tcpTimeStamp seg.xmitTime offset) ∧
  ¬(seg.xmitCount > 1 ∧ now - seg.xmitTime < rc.minRTT)

instance (rc : rackControl) (seg : segment) (ackSeg : tcpOptions)
    (offset : Nat) (now : Int) :
    Decidable (acceptedQ rc seg ackSeg offset now) :=
  inferInstanceAs (Decidable (¬_ ∧ ¬_))

/-- The RTT samples accepted by a sequence of `update` calls, in call
order (the state is threaded through to evaluate the filter). -/
def acceptedSamples (offset : Nat) : rackControl → List ackInput → List Int
  | _, [] => []
  | rc, i :: t =>
    let rest := acceptedSamples offset (update rc i.seg i.ack offset i.now) t
    if acceptedQ rc i.seg i.ack offset i.now then sampleOf i :: rest else rest

/-- Minimum of a list of samples, `0` (the "unset" encoding of `minRTT`)
when the list is empty. -/
def sampleMin : List Int → Int
  | [] => 0
  | h :: t => t.foldl min h

/-! ### Basic shape lemmas for `update` -/

theorem update_rejected (rc : rackControl) (seg : segment)
    (ackSeg : tcpOptions) (offset : Nat) (now : Int)
    (h : ¬ acceptedQ rc seg ackSeg offset now) :
    update rc seg ackSeg offset now = rc := by
  have h' : (seg.xmitCount > 1 ∧ ackSeg.TS = true ∧ ackSeg.TSEcr ≠ 0 ∧
      ackSeg.TSEcr < tcpTimeStamp seg.xmitTime offset) ∨
      (seg.xmitCount > 1 ∧ now - seg.xmitTime < rc.minRTT) := by
    unfold acceptedQ at h
    tauto
  unfold update
  dsimp only
  split_ifs with h1 h2 <;> first | rfl | exact absurd h' (by tauto)

theorem update_accepted (rc : rackControl) (seg : segment)
    (ackSeg : tcpOptions) (offset : Nat) (now : Int)
    (h : acceptedQ rc seg ackSeg offset now) :
    update rc seg ackSeg offset now =
      (let rtt := now - seg.xmitTime
      let m := if rtt < rc.minRTT ∨ rc.minRTT = 0 then rtt else rc.minRTT
      let endSeq := seqAdd seg.sequenceNumber seg.dataSize
      if rc.xmitTime < seg.xmitTime ∨
          (seg.xmitTime = rc.xmitTime ∧ seqLt rc.endSequence endSeq) then
        { rc with
          rtt := rtt
          minRTT := m
          xmitTime := seg.xmitTime
          endSequence := endSeq }
      else
        { rc with rtt := rtt, minRTT := m }) := by
  unfold acceptedQ at h
  unfold update
  dsimp only
  split_ifs with h1 h2 <;> simp_all

/-! ### Frame lemmas -/

theorem update_fack (rc : rackControl) (seg : segment) (ackSeg : tcpOptions)
    (offset : Nat) (now : Int) :
    (update rc seg ackSeg offset now).fack = rc.fack := by
  unfold update; dsimp only; split_ifs <;> rfl

theorem update_reorderSeen (rc : rackControl) (seg : segment)
    (ackSeg : tcpOptions) (offset : Nat) (now : Int) :
    (update rc seg ackSeg offset now).reorderSeen = rc.reorderSeen := by
  unfold update; dsimp only; split_ifs <;> rfl

theorem update_dsackSeen (rc : rackControl) (seg : segment)
    (ackSeg : tcpOptions) (offset : Nat) (now : Int) :
    (update rc seg ackSeg offset now).dsackSeen = rc.dsackSeen := by
  unfold update; dsimp only; split_ifs <;> rfl

theorem detectReorder_rtt (rc : rackControl) (seg : segment) :
    (detectReorder rc seg).rtt = rc.rtt := by
  unfold detectReorder; dsimp only; split_ifs <;> rfl

theorem detectReorder_minRTT (rc : rackControl) (seg : segment) :
    (detectReorder rc seg).minRTT = rc.minRTT := by
  unfold detectReorder; dsimp only; split_ifs <;> rfl

theorem detectReorder_xmitTime (rc : rackControl) (seg : segment) :
    (detectReorder rc seg).xmitTime = rc.xmitTime := by
  unfold detectReorder; dsimp only; split_ifs <;> rfl

theorem detectReorder_endSequence (rc : rackControl) (seg : segment) :
    (detectReorder rc seg).endSequence = rc.endSequence := by
  unfold detectReorder; dsimp only; split_ifs <;> rfl

theorem detectReorder_dsackSeen (rc : rackControl) (seg : segment) :
    (detectReorder rc seg).dsackSeen = rc.dsackSeen := by
  unfold detectReorder; dsimp only; split_ifs <;> rfl

theorem detectReorder_reorder_mono (rc : rackControl) (seg : segment)
    (h : rc.reorderSeen = true) :
    (detectReorder rc seg).reorderSeen = true := by
  unfold detectReorder; dsimp only; split_ifs <;> simp_all

theorem update_minRTT_le (rc : rackControl) (seg : segment)
    (ackSeg : tcpOptions) (offset : Nat) (now : Int) (hm : rc.minRTT ≠ 0) :
    (update rc seg ackSeg offset now).minRTT ≤ rc.minRTT := by
  by_cases h : acceptedQ rc seg ackSeg offset now
  · rw [update_accepted rc seg ackSeg offset now h]
    dsimp only
    split_ifs <;> simp_all <;> omega
  · rw [update_rejected rc seg ackSeg offset now h]

/-- **C10** For every input, each operation writes only its own fields:
`update` never modifies `fack`, `reorderSeen` or `dsackSeen`;
`detectReorder` never modifies `rtt`, `minRTT`, `xmitTime`, `endSequence`
or `dsackSeen`; `setDSACKSeen` modifies only `dsackSeen`. -/
theorem rack_C10_frame (rc : rackControl) (seg seg2 : segment)
    (ackSeg : tcpOptions) (offset : Nat) (now : Int) :
    ((update rc seg ackSeg offset now).fack = rc.fack ∧
      (update rc seg ackSeg offset now).reorderSeen = rc.reorderSeen ∧
      (update rc seg ackSeg offset now).dsackSeen = rc.dsackSeen) ∧
    ((detectReorder rc seg2).rtt = rc.rtt ∧
      (detectReorder rc seg2).minRTT = rc.minRTT ∧
      (detectReorder rc seg2).xmitTime = rc.xmitTime ∧
      (detectReorder rc seg2).endSequence = rc.endSequence ∧
      (detectReorder rc seg2).dsackSeen = rc.dsackSeen) ∧
    ((setDSACKSeen rc).endSequence = rc.endSequence ∧
      (setDSACKSeen rc).fack = rc.fack ∧
      (setDSACKSeen rc).minRTT = rc.minRTT ∧
      (setDSACKSeen rc).rtt = rc.rtt ∧
      (setDSACKSeen rc).reorderSeen = rc.reorderSeen ∧
      (setDSACKSeen rc).xmitTime = rc.xmitTime) := by
  refine ⟨⟨update_fack .., update_reorderSeen .., update_dsackSeen ..⟩,
    ⟨detectReorder_rtt .., detectReorder_minRTT .., detectReorder_xmitTime ..,
      detectReorder_endSequence .., detectReorder_dsackSeen ..⟩, ?_⟩
  unfold setDSACKSeen
  exact ⟨rfl, rfl, rfl, rfl, rfl, rfl⟩

/-- **C7** Each of the three operations preserves: `fack` either stays
equal or moves to a modularly greater value, and `minRTT`, once non-zero,
never increases. -/
theorem rack_C7_invariants (rc : rackControl) (seg seg2 : segment)
    (ackSeg : tcpOptions) (offset : Nat) (now : Int) :
    (((update rc seg ackSeg offset now).fack = rc.fack ∨
        seqLt rc.fack (update rc seg ackSeg offset now).fack) ∧
      (rc.minRTT ≠ 0 → (update rc seg ackSeg offset now).minRTT ≤ rc.minRTT)) ∧
    (((detectReorder rc seg2).fack = rc.fack ∨
        seqLt rc.fack (detectReorder rc seg2).fack) ∧
      (rc.minRTT ≠ 0 → (detectReorder rc seg2).minRTT ≤ rc.minRTT)) ∧
    (((setDSACKSeen rc).fack = rc.fack ∨
        seqLt rc.fack (setDSACKSeen rc).fack) ∧
      (rc.minRTT ≠ 0 → (setDSACKSeen rc).minRTT ≤ rc.minRTT)) := by
  refine ⟨⟨Or.inl (update_fack ..), ?_⟩, ⟨?_, ?_⟩, Or.inl rfl,
    fun _ => le_of_eq rfl⟩
  · intro hm
    exact update_minRTT_le rc seg ackSeg offset now hm
  · unfold detectReorder
    dsimp only
    split_ifs with h1 h2
    · exact Or.inr h1
    · exact Or.inl rfl
    · exact Or.inl rfl
  · intro _
    rw [detectReorder_minRTT]

/-- Witness for C7 at a concrete state and input. -/
theorem rack_C7_invariants_witness :
    let rc : rackControl := ⟨false, 10, 10, 5, 5, false, 0⟩
    let seg : segment := ⟨10, 5, 1, 1⟩
    (((update rc seg ⟨false, 0⟩ 0 3).fack = rc.fack ∨
        seqLt rc.fack (update rc seg ⟨false, 0⟩ 0 3).fack) ∧
      (rc.minRTT ≠ 0 → (update rc seg ⟨false, 0⟩ 0 3).minRTT ≤ rc.minRTT)) ∧
    (((detectReorder rc seg).fack = rc.fack ∨
        seqLt rc.fack (detectReorder rc seg).fack) ∧
      (rc.minRTT ≠ 0 → (detectReorder rc seg).minRTT ≤ rc.minRTT)) ∧
    (((setDSACKSeen rc).fack = rc.fack ∨
        seqLt rc.fack (setDSACKSeen rc).fack) ∧
      (rc.minRTT ≠ 0 → (setDSACKSeen rc).minRTT ≤ rc.minRTT)) :=
  rack_C7_invariants ⟨false, 10, 10, 5, 5, false, 0⟩ ⟨10, 5, 1, 1⟩
    ⟨10, 5, 1, 1⟩ ⟨false, 0⟩ 0 3

/-- **C8** `setDSACKSeen` unconditionally sets `dsackSeen` and is
idempotent; once `reorderSeen` or `dsackSeen` is `true`, no call to any of
the three operations makes it `false` again. -/
theorem rack_C8_sticky (rc : rackControl) (seg seg2 : segment)
    (ackSeg : tcpOptions) (offset : Nat) (now : Int) :
    (setDSACKSeen rc).dsackSeen = true ∧
    setDSACKSeen (setDSACKSeen rc) = setDSACKSeen rc ∧
    (rc.reorderSeen = true →
      (update rc seg ackSeg offset now).reorderSeen = true ∧
      (detectReorder rc seg2).reorderSeen = true ∧
      (setDSACKSeen rc).reorderSeen = true) ∧
    (rc.dsackSeen = true →
      (update rc seg ackSeg offset now).dsackSeen = true ∧
      (detectReorder rc seg2).dsackSeen = true ∧
      (setDSACKSeen rc).dsackSeen = true) := by
  refine ⟨rfl, rfl, fun hr => ⟨?_, detectReorder_reorder_mono _ _ hr, hr⟩,
    fun hd => ⟨?_, ?_, rfl⟩⟩
  · rw [update_reorderSeen]; exact hr
  · rw [update_dsackSeen]; exact hd
  · rw [detectReorder_dsackSeen]; exact hd

/-- Witness for C8 at a concrete state and input. -/
theorem rack_C8_sticky_witness :
    let rc : rackControl := ⟨true, 0, 0, 0, 0, true, 0⟩
    let seg : segment := ⟨0, 1, 0, 1⟩
    (setDSACKSeen rc).dsackSeen = true ∧
    setDSACKSeen (setDSACKSeen rc) = setDSACKSeen rc ∧
    (rc.reorderSeen = true →
      (update rc seg ⟨false, 0⟩ 0 1).reorderSeen = true ∧
      (detectReorder rc seg).reorderSeen = true ∧
      (setDSACKSeen rc).reorderSeen = true) ∧
    (rc.dsackSeen = true →
      (update rc seg ⟨false, 0⟩ 0 1).dsackSeen = true ∧
      (detectReorder rc seg).dsackSeen = true ∧
      (setDSACKSeen rc).dsackSeen = true) :=
  rack_C8_sticky ⟨true, 0, 0, 0, 0, true, 0⟩ ⟨0, 1, 0, 1⟩ ⟨0, 1, 0, 1⟩
    ⟨false, 0⟩ 0 1


/-! ### C1: negative RTT samples -/

/-- **C1 (amended)** A negative RTT sample is discarded — the call is a
no-op — when the segment was retransmitted (`xmitCount > 1`) and `minRTT`
is non-negative: the `rtt < rc.minRTT` filter catches it. (For
`xmitCount = 1` the negative sample is accepted; see the
counterexample.) -/
theorem rack_C1_neg_sample_discard (rc : rackControl) (seg : segment)
    (ackSeg : tcpOptions) (offset : Nat) (now : Int)
    (hc : seg.xmitCount > 1) (hneg : now - seg.xmitTime < 0)
    (hm : 0 ≤ rc.minRTT) :
    update rc seg ackSeg offset now = rc := by
  apply update_rejected
  intro hacc
  exact hacc.2 ⟨hc, by omega⟩

/-- Witness for the amended C1 at a concrete state and input. -/
theorem rack_C1_neg_sample_discard_witness :
    let rc0 : rackControl := ⟨false, 0, 0, 0, 0, false, 0⟩
    let seg : segment := ⟨0, 1, 5, 2⟩
    seg.xmitCount > 1 ∧ (0 : Int) - seg.xmitTime < 0 ∧ (0 : Int) ≤ rc0.minRTT ∧
    update rc0 seg ⟨false, 0⟩ 0 0 = rc0 :=
  ⟨by decide, by decide, by decide,
    rack_C1_neg_sample_discard ⟨false, 0, 0, 0, 0, false, 0⟩ ⟨0, 1, 5, 2⟩
      ⟨false, 0⟩ 0 0 (by decide) (by decide) (by decide)⟩

/-- **C1 (counterexample)** For a never-retransmitted segment
(`xmitCount = 1`) a negative RTT sample is not discarded: the call changes
the state and drives `rtt` and `minRTT` negative. -/
theorem rack_C1_counterexample :
    let rc0 : rackControl := ⟨false, 0, 0, 0, 0, false, 0⟩
    let seg : segment := ⟨0, 1, 5, 1⟩
    (0 : Int) - seg.xmitTime < 0 ∧
    update rc0 seg ⟨false, 0⟩ 0 0 ≠ rc0 ∧
    (update rc0 seg ⟨false, 0⟩ 0 0).minRTT < 0 ∧
    (update rc0 seg ⟨false, 0⟩ 0 0).rtt < 0 := by decide

/-! ### C3: the timestamp-echo filter -/

/-- **C3 (amended)** The timestamp-echo no-op needs the side conditions the
code checks: when `xmitCount > 1`, the timestamp option is present
(`TS = true`), the echoed value is non-zero and it is below
`tcpTimeStamp seg.xmitTime offset`, the call is a full no-op. (Without
`TS = true` and `TSEcr ≠ 0` the filter does not fire; see the
counterexample.) -/
theorem rack_C3_ts_noop (rc : rackControl) (seg : segment)
    (ackSeg : tcpOptions) (offset : Nat) (now : Int)
    (hc : seg.xmitCount > 1) (hts : ackSeg.TS = true) (hne : ackSeg.TSEcr ≠ 0)
    (hlt : ackSeg.TSEcr < tcpTimeStamp seg.xmitTime offset) :
    update rc seg ackSeg offset now = rc := by
  apply update_rejected
  intro hacc
  exact hacc.1 ⟨hc, hts, hne, hlt⟩

/-- Witness for the amended C3 at a concrete state and input. -/
theorem rack_C3_ts_noop_witness :
    let rc0 : rackControl := ⟨false, 0, 0, 0, 0, false, 0⟩
    let seg : segment := ⟨0, 1, 0, 2⟩
    let ack : tcpOptions := ⟨true, 3⟩
    seg.xmitCount > 1 ∧ ack.TS = true ∧ ack.TSEcr ≠ 0 ∧
    ack.TSEcr < tcpTimeStamp seg.xmitTime 7 ∧
    update rc0 seg ack 7 5 = rc0 :=
  ⟨by decide, by decide, by decide, by decide,
    rack_C3_ts_noop ⟨false, 0, 0, 0, 0, false, 0⟩ ⟨0, 1, 0, 2⟩ ⟨true, 3⟩ 7 5
      (by decide) (by decide) (by decide) (by decide)⟩

/-- **C3 (counterexample)** With `xmitCount > 1` and
`TSEcr < tcpTimeStamp seg.xmitTime offset` but the timestamp option absent
(`TS = false`), the call is not a no-op: the claim's "no side condition on
hasTimestamp or on timestampEchoReply being non-zero" fails. -/
theorem rack_C3_counterexample :
    let rc0 : rackControl := ⟨false, 0, 0, 0, 0, false, 0⟩
    let seg : segment := ⟨0, 1, 0, 2⟩
    let ack : tcpOptions := ⟨false, 0⟩
    seg.xmitCount > 1 ∧ ack.TSEcr < tcpTimeStamp seg.xmitTime 7 ∧
    update rc0 seg ack 7 5 ≠ rc0 ∧
    (update rc0 seg ack 7 5).rtt = 5 := by decide

/-! ### C4: the non-advancing branch of detectReorder -/

/-- **C4 (amended)** When `endSeq` does not modularly exceed `fack`,
`detectReorder` leaves `fack` unchanged, and it sets `reorderSeen` exactly
when `endSeq` is modularly strictly below `fack` and `xmitCount = 1`; in
particular at `endSeq = fack` nothing changes (the claim's "including the
case endSeq = fack" fails; see the counterexample). -/
theorem rack_C4_reorder_branch (rc : rackControl) (seg : segment)
    (h : ¬ seqLt rc.fack (endSeqOf seg)) :
    (detectReorder rc seg).fack = rc.fack ∧
    (detectReorder rc seg).reorderSeen =
      (if seqLt (endSeqOf seg) rc.fack ∧ seg.xmitCount = 1 then true
        else rc.reorderSeen) := by
  unfold detectReorder endSeqOf
  unfold endSeqOf at h
  dsimp only
  split_ifs <;> simp_all

/-- Witness for the amended C4 at a concrete state and input. -/
theorem rack_C4_reorder_branch_witness :
    let rc : rackControl := ⟨false, 0, 100, 0, 0, false, 0⟩
    let seg : segment := ⟨50, 50, 0, 1⟩
    ¬ seqLt rc.fack (endSeqOf seg) ∧
    ((detectReorder rc seg).fack = rc.fack ∧
      (detectReorder rc seg).reorderSeen =
        (if seqLt (endSeqOf seg) rc.fack ∧ seg.xmitCount = 1 then true
          else rc.reorderSeen)) :=
  ⟨by decide, rack_C4_reorder_branch ⟨false, 0, 100, 0, 0, false, 0⟩
    ⟨50, 50, 0, 1⟩ (by decide)⟩

/-- **C4 (counterexample)** At `endSeq = fack` with `xmitCount = 1` the
call does not set `reorderSeen`, contrary to the claim's "including the
case endSeq = fack". -/
theorem rack_C4_counterexample :
    let rc : rackControl := ⟨false, 0, 100, 0, 0, false, 0⟩
    let seg : segment := ⟨50, 50, 0, 1⟩
    endSeqOf seg = rc.fack ∧ seg.xmitCount = 1 ∧
    (detectReorder rc seg).reorderSeen = false := by decide

/-! ### C9: detectReorder on a modularly increasing chain -/

/-- **C9 (amended)** Over a sequence of segments with end-sequence values
forming a modular strictly increasing chain starting above the state's
current `fack` (the claim omits this side condition on the initial `fack`;
see the counterexample), from a state with `reorderSeen = false`:
`reorderSeen` stays `false` after every call and `fack` tracks the most
recent end-sequence value — the running maximum of the chain. -/
theorem rack_C9_increasing_chain (rc : rackControl) (l : List segment)
    (hr : rc.reorderSeen = false)
    (hcnt : ∀ s ∈ l, s.xmitCount = 1)
    (hchain : List.Chain seqLt rc.fack (l.map endSeqOf)) :
    (applyDetect rc l).reorderSeen = false ∧
    (applyDetect rc l).fack = (l.map endSeqOf).getLastD rc.fack := by
  induction l generalizing rc with
  | nil => exact ⟨hr, rfl⟩
  | cons s t ih =>
    rw [List.map_cons] at hchain
    cases hchain with
    | cons hlt hch =>
      have hstep : detectReorder rc s = { rc with fack := endSeqOf s } := by
        unfold detectReorder endSeqOf
        unfold endSeqOf at hlt
        dsimp only
        rw [if_pos hlt]
      have hrec := ih { rc with fack := endSeqOf s } hr
        (fun x hx => hcnt x (List.mem_cons_of_mem s hx)) hch
      have happ : applyDetect rc (s :: t) =
          applyDetect { rc with fack := endSeqOf s } t := by
        unfold applyDetect
        rw [List.foldl_cons, hstep]
      rw [happ, List.map_cons, List.getLastD_cons]
      exact hrec

/-- Witness for the amended C9 at a concrete state and chain. -/
theorem rack_C9_increasing_chain_witness :
    let rc0 : rackControl := ⟨false, 0, 0, 0, 0, false, 0⟩
    let l : List segment := [⟨0, 10, 0, 1⟩, ⟨10, 10, 0, 1⟩]
    (applyDetect rc0 l).reorderSeen = false ∧
    (applyDetect rc0 l).fack = (l.map endSeqOf).getLastD rc0.fack :=
  rack_C9_increasing_chain ⟨false, 0, 0, 0, 0, false, 0⟩
    [⟨0, 10, 0, 1⟩, ⟨10, 10, 0, 1⟩] (by decide) (by decide)
    (List.Chain.cons (by decide) (List.Chain.cons (by decide)
      List.Chain.nil))

/-- **C9 (counterexample)** From a state with `reorderSeen = false` but a
`fack` already above the (trivially strictly increasing) single
end-sequence value, the call sets `reorderSeen` even though every segment
has `xmitCount = 1`. -/
theorem rack_C9_counterexample :
    let rc : rackControl := ⟨false, 0, 100, 0, 0, false, 0⟩
    let seg : segment := ⟨0, 50, 0, 1⟩
    rc.reorderSeen = false ∧ seg.xmitCount = 1 ∧
    (applyDetect rc [seg]).reorderSeen = true := by decide

/-! ### The minRTT evolution: abstraction of the "0 means unset" encoding -/

/-- Abstraction of `minRTT`'s encoding: `none` for the unset value `0`. -/
def minOpt (m : Int) : Option Int := if m = 0 then none else some m

/-- Folding one accepted sample into the abstracted minimum. -/
def ominStep (o : Option Int) (s : Int) : Option Int :=
  some (match o with
    | none => s
    | some m => min m s)

theorem minOpt_inj (a b : Int) (h : minOpt a = minOpt b) : a = b := by
  unfold minOpt at h
  split_ifs at h <;> simp_all

theorem ominStep_comm (z : Option Int) (a b : Int) :
    ominStep (ominStep z a) b = ominStep (ominStep z b) a := by
  cases z <;> simp [ominStep] <;> omega

/-- A single accepted `update` call with a non-zero sample advances the
abstracted minimum by one `ominStep`. -/
theorem update_minRTT_phi (rc : rackControl) (seg : segment)
    (ackSeg : tcpOptions) (offset : Nat) (now : Int)
    (hacc : acceptedQ rc seg ackSeg offset now)
    (hs : now - seg.xmitTime ≠ 0) :
    minOpt ((update rc seg ackSeg offset now).minRTT) =
      ominStep (minOpt rc.minRTT) (now - seg.xmitTime) := by
  rw [update_accepted rc seg ackSeg offset now hacc]
  dsimp only
  by_cases hm : rc.minRTT = 0 <;>
    split_ifs <;> simp_all [minOpt, ominStep] <;> omega

/-- A segment with `xmitCount = 1` is always accepted: both early-return
filters require `xmitCount > 1`. -/
theorem acceptedQ_of_xmitCount_one (rc : rackControl) (seg : segment)
    (ackSeg : tcpOptions) (offset : Nat) (now : Int)
    (hcnt : seg.xmitCount = 1) :
    acceptedQ rc seg ackSeg offset now :=
  ⟨fun h => by omega, fun h => by omega⟩

theorem acceptedSamples_cons (offset : Nat) (rc : rackControl)
    (i : ackInput) (t : List ackInput) :
    acceptedSamples offset rc (i :: t) =
      (if acceptedQ rc i.seg i.ack offset i.now then
        sampleOf i ::
          acceptedSamples offset (update rc i.seg i.ack offset i.now) t
      else acceptedSamples offset (update rc i.seg i.ack offset i.now) t) :=
  rfl

/-- Closed form of `minRTT` over a sequence of `update` calls whose
accepted samples are non-zero (rejected samples are unconstrained): the
abstracted minimum folds over exactly the accepted samples. -/
theorem applyUpdates_minOpt (offset : Nat) (rc : rackControl)
    (l : List ackInput)
    (hs : ∀ s ∈ acceptedSamples offset rc l, s ≠ 0) :
    minOpt ((applyUpdates offset rc l).minRTT) =
      (acceptedSamples offset rc l).foldl ominStep (minOpt rc.minRTT) := by
  induction l generalizing rc with
  | nil => rfl
  | cons i t ih =>
    have hstep : applyUpdates offset rc (i :: t) =
        applyUpdates offset (update rc i.seg i.ack offset i.now) t := rfl
    by_cases hacc : acceptedQ rc i.seg i.ack offset i.now
    · have hlist : acceptedSamples offset rc (i :: t) =
          sampleOf i ::
            acceptedSamples offset (update rc i.seg i.ack offset i.now) t := by
        rw [acceptedSamples_cons, if_pos hacc]
      have hst : ∀ s ∈ acceptedSamples offset
          (update rc i.seg i.ack offset i.now) t, s ≠ 0 := by
        intro s hsm
        refine hs s ?_
        rw [hlist]
        exact List.mem_cons_of_mem (sampleOf i) hsm
      have hhead : sampleOf i ≠ 0 := by
        refine hs (sampleOf i) ?_
        rw [hlist]
        exact List.mem_cons_self (sampleOf i) _
      rw [hstep, hlist, List.foldl_cons,
        ih (update rc i.seg i.ack offset i.now) hst,
        update_minRTT_phi rc i.seg i.ack offset i.now hacc hhead]
      rfl
    · have hlist : acceptedSamples offset rc (i :: t) =
          acceptedSamples offset (update rc i.seg i.ack offset i.now) t := by
        rw [acceptedSamples_cons, if_neg hacc]
      have hst : ∀ s ∈ acceptedSamples offset
          (update rc i.seg i.ack offset i.now) t, s ≠ 0 := by
        intro s hsm
        refine hs s ?_
        rw [hlist]
        exact hsm
      rw [hstep, hlist, ih (update rc i.seg i.ack offset i.now) hst,
        update_rejected rc i.seg i.ack offset i.now hacc]

theorem foldl_ominStep_some (t : List Int) (a : Int) :
    t.foldl ominStep (some a) = some (t.foldl min a) := by
  induction t generalizing a with
  | nil => rfl
  | cons c t ih =>
    rw [List.foldl_cons, List.foldl_cons]
    exact ih (min a c)

theorem foldl_ominStep_sampleMin (l : List Int) :
    l.foldl ominStep none =
      (match l with
        | [] => (none : Option Int)
        | _ :: _ => some (sampleMin l)) := by
  cases l with
  | nil => rfl
  | cons h t =>
    rw [List.foldl_cons]
    exact foldl_ominStep_some t h

theorem foldl_min_le (b : List Int) (z : Int) : b.foldl min z ≤ z := by
  induction b generalizing z with
  | nil => exact le_refl z
  | cons c b ih =>
    rw [List.foldl_cons]
    exact le_trans (ih (min z c)) (min_le_left z c)

theorem sampleMin_cons (h : Int) (t : List Int) :
    sampleMin (h :: t) = t.foldl min h := rfl

theorem sampleMin_append_le (a b : List Int) (ha : a ≠ []) :
    sampleMin (a ++ b) ≤ sampleMin a := by
  cases a with
  | nil => exact absurd rfl ha
  | cons h t =>
    rw [List.cons_append, sampleMin_cons, sampleMin_cons, List.foldl_append]
    exact foldl_min_le b (t.foldl min h)

theorem acceptedSamples_append (offset : Nat) (rc : rackControl)
    (l1 l2 : List ackInput) :
    acceptedSamples offset rc (l1 ++ l2) =
      acceptedSamples offset rc l1 ++
        acceptedSamples offset (applyUpdates offset rc l1) l2 := by
  induction l1 generalizing rc with
  | nil => rfl
  | cons i t ih =>
    rw [List.cons_append, acceptedSamples_cons, acceptedSamples_cons]
    have happ : applyUpdates offset rc (i :: t) =
        applyUpdates offset (update rc i.seg i.ack offset i.now) t := rfl
    rw [happ, ih (update rc i.seg i.ack offset i.now)]
    split_ifs <;> simp

theorem foldl_min_mem_cons (t : List Int) (a : Int) :
    t.foldl min a ∈ a :: t := by
  induction t generalizing a with
  | nil => exact List.mem_singleton.2 rfl
  | cons c t ih =>
    rw [List.foldl_cons]
    have h := ih (min a c)
    rcases List.mem_cons.1 h with h1 | h1
    · rcases min_choice a c with hm | hm
      · rw [h1, hm]
        exact List.mem_cons_self a (c :: t)
      · rw [h1, hm]
        exact List.mem_cons_of_mem a (List.mem_cons_self c t)
    · exact List.mem_cons_of_mem a (List.mem_cons_of_mem c h1)

theorem sampleMin_mem (a : Int) (t : List Int) :
    sampleMin (a :: t) ∈ a :: t := foldl_min_mem_cons t a

/-- Closed form of `minRTT` from an unset start: it equals the minimum of
the accepted samples (`0` while none is accepted). -/
theorem applyUpdates_minRTT_closed (offset : Nat) (rc : rackControl)
    (l : List ackInput) (hm : rc.minRTT = 0)
    (hs : ∀ s ∈ acceptedSamples offset rc l, s ≠ 0) :
    (applyUpdates offset rc l).minRTT =
      sampleMin (acceptedSamples offset rc l) := by
  have h1 := applyUpdates_minOpt offset rc l hs
  rw [hm] at h1
  have h2 : minOpt 0 = none := rfl
  rw [h2, foldl_ominStep_sampleMin] at h1
  cases hc : acceptedSamples offset rc l with
  | nil =>
    rw [hc] at h1
    apply minOpt_inj
    rw [h1]
    rfl
  | cons a t =>
    rw [hc] at h1
    apply minOpt_inj
    rw [h1]
    have hne : sampleMin (a :: t) ≠ 0 := by
      have hmem : sampleMin (a :: t) ∈ acceptedSamples offset rc l := by
        rw [hc]
        exact sampleMin_mem a t
      exact hs (sampleMin (a :: t)) hmem
    unfold minOpt
    rw [if_neg hne]

/-- **C5 (amended)** Starting with `minRTT` unset, over `update` calls
whose accepted RTT samples are all non-zero (rejected samples may be
anything; a zero accepted sample re-arms the "0 means unset" encoding and
breaks the claim, see the counterexample): after any prefix `minRTT`
equals the minimum of the samples accepted so far (`0` while none is
accepted), and it never increases across further calls once a sample has
been accepted. -/
theorem rack_C5_min_tracking (offset : Nat) (rc : rackControl)
    (l : List ackInput) (hm : rc.minRTT = 0)
    (hs : ∀ s ∈ acceptedSamples offset rc l, s ≠ 0) :
    (applyUpdates offset rc l).minRTT =
      sampleMin (acceptedSamples offset rc l) ∧
    ∀ l2, (∀ s ∈ acceptedSamples offset (applyUpdates offset rc l) l2,
        s ≠ 0) →
      acceptedSamples offset rc l ≠ [] →
      (applyUpdates offset rc (l ++ l2)).minRTT ≤
        (applyUpdates offset rc l).minRTT := by
  refine ⟨applyUpdates_minRTT_closed offset rc l hm hs, ?_⟩
  intro l2 hs2 hne
  have hboth : ∀ s ∈ acceptedSamples offset rc (l ++ l2), s ≠ 0 := by
    intro s hsm
    rw [acceptedSamples_append offset rc l l2] at hsm
    rcases List.mem_append.1 hsm with h | h
    · exact hs s h
    · exact hs2 s h
  rw [applyUpdates_minRTT_closed offset rc (l ++ l2) hm hboth,
    applyUpdates_minRTT_closed offset rc l hm hs,
    acceptedSamples_append offset rc l l2]
  exact sampleMin_append_le (acceptedSamples offset rc l)
    (acceptedSamples offset (applyUpdates offset rc l) l2) hne

/-- Witness for the amended C5 at concrete inputs: sample 5 accepted,
then a zero sample on a retransmitted segment, rejected by the
`rtt < minRTT` filter, so the accepted samples are exactly `[5]`. -/
theorem rack_C5_min_tracking_witness :
    let rc0 : rackControl := ⟨false, 0, 0, 0, 0, false, 0⟩
    let l : List ackInput := [⟨⟨0, 1, 0, 1⟩, ⟨false, 0⟩, 5⟩,
      ⟨⟨1, 1, 0, 2⟩, ⟨false, 0⟩, 0⟩]
    (applyUpdates 0 rc0 l).minRTT = sampleMin (acceptedSamples 0 rc0 l) ∧
    ∀ l2, (∀ s ∈ acceptedSamples 0 (applyUpdates 0 rc0 l) l2, s ≠ 0) →
      acceptedSamples 0 rc0 l ≠ [] →
      (applyUpdates 0 rc0 (l ++ l2)).minRTT ≤ (applyUpdates 0 rc0 l).minRTT :=
  rack_C5_min_tracking 0 ⟨false, 0, 0, 0, 0, false, 0⟩
    [⟨⟨0, 1, 0, 1⟩, ⟨false, 0⟩, 5⟩, ⟨⟨1, 1, 0, 2⟩, ⟨false, 0⟩, 0⟩]
    (by decide) (by decide)

/-- **C5 (counterexample)** With accepted samples `5, 0, 3` (all with
`xmitCount = 1`, hence accepted) the final `minRTT` is `3`, not the
minimum `0` of the accepted samples, and the observed `minRTT` sequence
increases from `0` to `3` after the third accepted sample. -/
theorem rack_C5_counterexample :
    let rc0 : rackControl := ⟨false, 0, 0, 0, 0, false, 0⟩
    let i1 : ackInput := ⟨⟨0, 1, 0, 1⟩, ⟨false, 0⟩, 5⟩
    let i2 : ackInput := ⟨⟨1, 1, 0, 1⟩, ⟨false, 0⟩, 0⟩
    let i3 : ackInput := ⟨⟨2, 1, 0, 1⟩, ⟨false, 0⟩, 3⟩
    acceptedSamples 0 rc0 [i1, i2, i3] = [5, 0, 3] ∧
    sampleMin [(5 : Int), 0, 3] = 0 ∧
    (applyUpdates 0 rc0 [i1, i2]).minRTT = 0 ∧
    (applyUpdates 0 rc0 [i1, i2, i3]).minRTT = 3 := by decide

/-! ### The (xmitTime, endSequence) pair and fack as lexicographic maxima -/

/-- The lexicographic maximum on (transmit time, end-sequence offset)
pairs, mirroring the replacement condition of `update`: strictly later
time, or equal time with larger offset. -/
def lmaxP (a b : Int × Nat) : Int × Nat :=
  if a.1 < b.1 ∨ (b.1 = a.1 ∧ a.2 < b.2) then b else a

theorem lmaxP_comm (z a b : Int × Nat) :
    lmaxP (lmaxP z a) b = lmaxP (lmaxP z b) a := by
  rcases z with ⟨z1, z2⟩
  rcases a with ⟨a1, a2⟩
  rcases b with ⟨b1, b2⟩
  unfold lmaxP
  dsimp only
  split_ifs <;>
    first
      | rfl
      | (simp only [Prod.mk.injEq]; constructor <;> omega)

/-- Folding a left-commutative function over a list is invariant under
permutations. -/
theorem foldl_perm_of_comm {α β : Type} (f : β → α → β)
    (hc : ∀ z a b, f (f z a) b = f (f z b) a) {l1 l2 : List α}
    (p : l1.Perm l2) : ∀ z, l1.foldl f z = l2.foldl f z := by
  induction p with
  | nil => intro z; rfl
  | cons x _ ih =>
    intro z
    rw [List.foldl_cons, List.foldl_cons]
    exact ih _
  | swap x y l =>
    intro z
    rw [List.foldl_cons, List.foldl_cons, List.foldl_cons, List.foldl_cons, hc]
  | trans _ _ ih1 ih2 =>
    intro z
    rw [ih1 z, ih2 z]

/-- On a half-window of the sequence ring (offsets below `halfSeq` from a
common base), the modular order agrees with the order of the offsets. -/
theorem seqLt_window (B da db : Nat) (ha : da < halfSeq) (hb : db < halfSeq) :
    seqLt ((B + da) % seqMod) ((B + db) % seqMod) ↔ da < db := by
  unfold seqLt seqMod halfSeq at *
  omega

theorem detectReorder_fack_step (rc : rackControl) (s : segment) :
    (detectReorder rc s).fack =
      (if seqLt rc.fack (endSeqOf s) then endSeqOf s else rc.fack) := by
  unfold detectReorder endSeqOf
  dsimp only
  split_ifs <;> rfl

/-- An accepted `update` call replaces the `(xmitTime, endSequence)` pair
exactly when the segment's transmit time is strictly later, or equal with
a modularly greater end sequence. -/
theorem update_pair_step (rc : rackControl) (seg : segment)
    (ackSeg : tcpOptions) (offset : Nat) (now : Int)
    (hacc : acceptedQ rc seg ackSeg offset now) :
    ((update rc seg ackSeg offset now).xmitTime,
      (update rc seg ackSeg offset now).endSequence) =
      (if rc.xmitTime < seg.xmitTime ∨
          (seg.xmitTime = rc.xmitTime ∧ seqLt rc.endSequence (endSeqOf seg))
        then (seg.xmitTime, endSeqOf seg)
        else (rc.xmitTime, rc.endSequence)) := by
  rw [update_accepted rc seg ackSeg offset now hacc]
  unfold endSeqOf
  dsimp only
  split_ifs <;> rfl

/-- An accepted `update` call advances the represented
`(xmitTime, end-sequence offset)` pair by one `lmaxP` step. -/
theorem update_pair_repr (B : Nat) (rc : rackControl) (seg : segment)
    (ackSeg : tcpOptions) (offset : Nat) (now : Int)
    (hacc : acceptedQ rc seg ackSeg offset now) (d de : Nat)
    (hp : endSeqOf seg = (B + d) % seqMod) (hd : d < halfSeq)
    (he : rc.endSequence = (B + de) % seqMod) (hde : de < halfSeq) :
    ((update rc seg ackSeg offset now).xmitTime,
      (update rc seg ackSeg offset now).endSequence) =
      ((lmaxP (rc.xmitTime, de) (seg.xmitTime, d)).1,
        (B + (lmaxP (rc.xmitTime, de) (seg.xmitTime, d)).2) % seqMod) := by
  rw [update_pair_step rc seg ackSeg offset now hacc, hp, he]
  unfold lmaxP
  dsimp only
  simp only [seqLt_window B de d hde hd]
  split_ifs <;> rfl

theorem lmaxP_snd_lt (a b : Int × Nat) (ha : a.2 < halfSeq)
    (hb : b.2 < halfSeq) : (lmaxP a b).2 < halfSeq := by
  unfold lmaxP
  split_ifs <;> assumption

/-- Closed form of `fack` over a batch: the running modular maximum of the
end-sequence offsets. -/
theorem applyBatch_fack (offset B : Nat) (rc : rackControl)
    (l : List (ackInput × Nat)) (df : Nat)
    (hwin : ∀ p ∈ l, endSeqOf p.1.seg = (B + p.2) % seqMod ∧ p.2 < halfSeq)
    (hf : rc.fack = (B + df) % seqMod) (hdf : df < halfSeq) :
    (applyBatch offset rc (l.map Prod.fst)).fack =
      (B + l.foldl (fun a p => if a < p.2 then p.2 else a) df) % seqMod := by
  induction l generalizing rc df with
  | nil => simpa using hf
  | cons p t ih =>
    obtain ⟨hp1, hp2⟩ := hwin p (List.mem_cons_self p t)
    have hfack : (stepAck offset rc p.1).fack =
        (B + if df < p.2 then p.2 else df) % seqMod := by
      unfold stepAck
      rw [detectReorder_fack_step, update_fack, hf, hp1]
      simp only [seqLt_window B df p.2 hdf hp2]
      split_ifs with h <;> rfl
    have happ : applyBatch offset rc ((p :: t).map Prod.fst) =
        applyBatch offset (stepAck offset rc p.1) (t.map Prod.fst) := rfl
    rw [happ, List.foldl_cons]
    exact ih (stepAck offset rc p.1) (if df < p.2 then p.2 else df)
      (fun q hq => hwin q (List.mem_cons_of_mem p hq)) hfack
      (by split_ifs <;> assumption)

/-- Closed form of the abstracted `minRTT` over a batch of
never-retransmitted segments: every sample is accepted and folded in. -/
theorem applyBatch_minOpt (offset : Nat) (rc : rackControl)
    (l : List ackInput) (hcnt : ∀ i ∈ l, i.seg.xmitCount = 1)
    (hs : ∀ i ∈ l, sampleOf i ≠ 0) :
    minOpt ((applyBatch offset rc l).minRTT) =
      (l.map sampleOf).foldl ominStep (minOpt rc.minRTT) := by
  induction l generalizing rc with
  | nil => rfl
  | cons i t ih =>
    have hstep : minOpt ((stepAck offset rc i).minRTT) =
        ominStep (minOpt rc.minRTT) (sampleOf i) := by
      unfold stepAck
      rw [detectReorder_minRTT]
      exact update_minRTT_phi rc i.seg i.ack offset i.now
        (acceptedQ_of_xmitCount_one rc i.seg i.ack offset i.now
          (hcnt i (List.mem_cons_self i t)))
        (hs i (List.mem_cons_self i t))
    have happ : applyBatch offset rc (i :: t) =
        applyBatch offset (stepAck offset rc i) t := rfl
    rw [happ, List.map_cons, List.foldl_cons, ← hstep]
    exact ih (stepAck offset rc i)
      (fun j hj => hcnt j (List.mem_cons_of_mem i hj))
      (fun j hj => hs j (List.mem_cons_of_mem i hj))

/-- Closed form of the `(xmitTime, endSequence)` pair over a batch of
never-retransmitted segments: a fold of `lmaxP` over the represented
pairs. -/
theorem applyBatch_pair (offset B : Nat) (rc : rackControl)
    (l : List (ackInput × Nat)) (de : Nat)
    (hcnt : ∀ p ∈ l, p.1.seg.xmitCount = 1)
    (hwin : ∀ p ∈ l, endSeqOf p.1.seg = (B + p.2) % seqMod ∧ p.2 < halfSeq)
    (he : rc.endSequence = (B + de) % seqMod) (hde : de < halfSeq) :
    ((applyBatch offset rc (l.map Prod.fst)).xmitTime,
      (applyBatch offset rc (l.map Prod.fst)).endSequence) =
      ((l.foldl (fun a p => lmaxP a (p.1.seg.xmitTime, p.2))
          (rc.xmitTime, de)).1,
        (B + (l.foldl (fun a p => lmaxP a (p.1.seg.xmitTime, p.2))
          (rc.xmitTime, de)).2) % seqMod) := by
  induction l generalizing rc de with
  | nil =>
    simp only [List.map_nil, List.foldl_nil]
    exact Prod.ext rfl he
  | cons p t ih =>
    obtain ⟨hp1, hp2⟩ := hwin p (List.mem_cons_self p t)
    have hrepr := update_pair_repr B rc p.1.seg p.1.ack offset p.1.now
      (acceptedQ_of_xmitCount_one rc p.1.seg p.1.ack offset p.1.now
        (hcnt p (List.mem_cons_self p t))) p.2 de hp1 hp2 he hde
    have hx : (stepAck offset rc p.1).xmitTime =
        (lmaxP (rc.xmitTime, de) (p.1.seg.xmitTime, p.2)).1 := by
      unfold stepAck
      rw [detectReorder_xmitTime]
      exact congrArg Prod.fst hrepr
    have hend : (stepAck offset rc p.1).endSequence =
        (B + (lmaxP (rc.xmitTime, de) (p.1.seg.xmitTime, p.2)).2) % seqMod := by
      unfold stepAck
      rw [detectReorder_endSequence]
      exact congrArg Prod.snd hrepr
    have happ : applyBatch offset rc ((p :: t).map Prod.fst) =
        applyBatch offset (stepAck offset rc p.1) (t.map Prod.fst) := rfl
    have hmk : ((stepAck offset rc p.1).xmitTime,
        (lmaxP (rc.xmitTime, de) (p.1.seg.xmitTime, p.2)).2) =
        lmaxP (rc.xmitTime, de) (p.1.seg.xmitTime, p.2) := by
      rw [hx]
    rw [happ, List.foldl_cons]
    exact (ih (stepAck offset rc p.1)
        (lmaxP (rc.xmitTime, de) (p.1.seg.xmitTime, p.2)).2
        (fun q hq => hcnt q (List.mem_cons_of_mem p hq))
        (fun q hq => hwin q (List.mem_cons_of_mem p hq)) hend
        (lmaxP_snd_lt (rc.xmitTime, de) (p.1.seg.xmitTime, p.2) hde hp2)).trans
      (by rw [hmk])

/-- **C2 (amended)** For a batch of never-retransmitted segments
(`xmitCount = 1`, so the spurious-retransmission filter never couples one
call's acceptance to another's effect) with non-zero RTT samples, whose
end sequences — together with the state's `fack` and `endSequence` — lie
in a common half-window of the sequence ring: processing the batch in any
order yields the same final `minRTT`, `fack`, `xmitTime` and
`endSequence`. (For retransmitted segments the filter reads `minRTT`,
which other batch members may have lowered, and the result becomes
order-dependent; see the counterexample.) -/
theorem rack_C2_batch_comm (offset B df de : Nat) (rc : rackControl)
    (l1 l2 : List (ackInput × Nat)) (hperm : l1.Perm l2)
    (hcnt : ∀ p ∈ l1, p.1.seg.xmitCount = 1)
    (hs : ∀ p ∈ l1, sampleOf p.1 ≠ 0)
    (hwin : ∀ p ∈ l1, endSeqOf p.1.seg = (B + p.2) % seqMod ∧ p.2 < halfSeq)
    (hf : rc.fack = (B + df) % seqMod) (hdf : df < halfSeq)
    (he : rc.endSequence = (B + de) % seqMod) (hde : de < halfSeq) :
    (applyBatch offset rc (l1.map Prod.fst)).minRTT =
      (applyBatch offset rc (l2.map Prod.fst)).minRTT ∧
    (applyBatch offset rc (l1.map Prod.fst)).fack =
      (applyBatch offset rc (l2.map Prod.fst)).fack ∧
    (applyBatch offset rc (l1.map Prod.fst)).xmitTime =
      (applyBatch offset rc (l2.map Prod.fst)).xmitTime ∧
    (applyBatch offset rc (l1.map Prod.fst)).endSequence =
      (applyBatch offset rc (l2.map Prod.fst)).endSequence := by
  have hcnt2 : ∀ p ∈ l2, p.1.seg.xmitCount = 1 :=
    fun p hp => hcnt p (hperm.symm.subset hp)
  have hs2 : ∀ p ∈ l2, sampleOf p.1 ≠ 0 :=
    fun p hp => hs p (hperm.symm.subset hp)
  have hwin2 : ∀ p ∈ l2, endSeqOf p.1.seg = (B + p.2) % seqMod ∧
      p.2 < halfSeq :=
    fun p hp => hwin p (hperm.symm.subset hp)
  have hcnt1m : ∀ i ∈ l1.map Prod.fst, i.seg.xmitCount = 1 := by
    intro i hi
    obtain ⟨p, hp, rfl⟩ := List.mem_map.1 hi
    exact hcnt p hp
  have hcnt2m : ∀ i ∈ l2.map Prod.fst, i.seg.xmitCount = 1 := by
    intro i hi
    obtain ⟨p, hp, rfl⟩ := List.mem_map.1 hi
    exact hcnt2 p hp
  have hs1m : ∀ i ∈ l1.map Prod.fst, sampleOf i ≠ 0 := by
    intro i hi
    obtain ⟨p, hp, rfl⟩ := List.mem_map.1 hi
    exact hs p hp
  have hs2m : ∀ i ∈ l2.map Prod.fst, sampleOf i ≠ 0 := by
    intro i hi
    obtain ⟨p, hp, rfl⟩ := List.mem_map.1 hi
    exact hs2 p hp
  refine ⟨?_, ?_, ?_, ?_⟩
  · apply minOpt_inj
    rw [applyBatch_minOpt offset rc (l1.map Prod.fst) hcnt1m hs1m,
      applyBatch_minOpt offset rc (l2.map Prod.fst) hcnt2m hs2m]
    exact foldl_perm_of_comm ominStep ominStep_comm
      ((hperm.map Prod.fst).map sampleOf) (minOpt rc.minRTT)
  · rw [applyBatch_fack offset B rc l1 df hwin hf hdf,
      applyBatch_fack offset B rc l2 df hwin2 hf hdf]
    have hfold := foldl_perm_of_comm
      (fun (a : Nat) (p : ackInput × Nat) => if a < p.2 then p.2 else a)
      (fun z a b => by dsimp only; split_ifs <;> omega) hperm df
    rw [hfold]
  · have h1 := applyBatch_pair offset B rc l1 de hcnt hwin he hde
    have h2 := applyBatch_pair offset B rc l2 de hcnt2 hwin2 he hde
    have hfold := foldl_perm_of_comm
      (fun (a : Int × Nat) (p : ackInput × Nat) =>
        lmaxP a (p.1.seg.xmitTime, p.2))
      (fun z a b => lmaxP_comm z (a.1.seg.xmitTime, a.2)
        (b.1.seg.xmitTime, b.2)) hperm (rc.xmitTime, de)
    have := h1.trans (by rw [hfold]) |>.trans h2.symm
    exact congrArg Prod.fst this
  · have h1 := applyBatch_pair offset B rc l1 de hcnt hwin he hde
    have h2 := applyBatch_pair offset B rc l2 de hcnt2 hwin2 he hde
    have hfold := foldl_perm_of_comm
      (fun (a : Int × Nat) (p : ackInput × Nat) =>
        lmaxP a (p.1.seg.xmitTime, p.2))
      (fun z a b => lmaxP_comm z (a.1.seg.xmitTime, a.2)
        (b.1.seg.xmitTime, b.2)) hperm (rc.xmitTime, de)
    have := h1.trans (by rw [hfold]) |>.trans h2.symm
    exact congrArg Prod.snd this

/-- Witness for the amended C2: a two-segment batch processed in both
orders. -/
theorem rack_C2_batch_comm_witness :
    let rc0 : rackControl := ⟨false, 0, 0, 0, 0, false, 0⟩
    let pA : ackInput × Nat := (⟨⟨0, 1, 0, 1⟩, ⟨false, 0⟩, 1⟩, 1)
    let pB : ackInput × Nat := (⟨⟨1, 1, 0, 1⟩, ⟨false, 0⟩, 2⟩, 2)
    (applyBatch 0 rc0 ([pA, pB].map Prod.fst)).minRTT =
      (applyBatch 0 rc0 ([pB, pA].map Prod.fst)).minRTT ∧
    (applyBatch 0 rc0 ([pA, pB].map Prod.fst)).fack =
      (applyBatch 0 rc0 ([pB, pA].map Prod.fst)).fack ∧
    (applyBatch 0 rc0 ([pA, pB].map Prod.fst)).xmitTime =
      (applyBatch 0 rc0 ([pB, pA].map Prod.fst)).xmitTime ∧
    (applyBatch 0 rc0 ([pA, pB].map Prod.fst)).endSequence =
      (applyBatch 0 rc0 ([pB, pA].map Prod.fst)).endSequence :=
  rack_C2_batch_comm 0 0 0 0 ⟨false, 0, 0, 0, 0, false, 0⟩
    [(⟨⟨0, 1, 0, 1⟩, ⟨false, 0⟩, 1⟩, 1), (⟨⟨1, 1, 0, 1⟩, ⟨false, 0⟩, 2⟩, 2)]
    [(⟨⟨1, 1, 0, 1⟩, ⟨false, 0⟩, 2⟩, 2), (⟨⟨0, 1, 0, 1⟩, ⟨false, 0⟩, 1⟩, 1)]
    (List.Perm.swap ((⟨⟨1, 1, 0, 1⟩, ⟨false, 0⟩, 2⟩, 2) : ackInput × Nat)
      ((⟨⟨0, 1, 0, 1⟩, ⟨false, 0⟩, 1⟩, 1) : ackInput × Nat) [])
    (by decide) (by decide) (by decide) (by decide) (by decide) (by decide)
    (by decide)

/-- **C2 (counterexample)** A batch with a retransmitted segment is not
order-independent: segment A (`xmitCount = 2`, sample 1) and segment B
(`xmitCount = 1`, sample 2) leave `minRTT = 1` when processed as [A, B]
(A accepted against `minRTT = 0`) but `minRTT = 2` as [B, A] (A discarded
by the `rtt < minRTT` filter once B has set `minRTT = 2`). -/
theorem rack_C2_counterexample :
    let rc0 : rackControl := ⟨false, 0, 0, 0, 0, false, 0⟩
    let iA : ackInput := ⟨⟨0, 1, 0, 2⟩, ⟨false, 0⟩, 1⟩
    let iB : ackInput := ⟨⟨1, 1, 0, 1⟩, ⟨false, 0⟩, 2⟩
    (applyBatch 0 rc0 [iA, iB]).minRTT = 1 ∧
    (applyBatch 0 rc0 [iB, iA]).minRTT = 2 ∧
    (applyBatch 0 rc0 [iA, iB]).minRTT ≠
      (applyBatch 0 rc0 [iB, iA]).minRTT := by decide

/-! ### C6: the (xmitTime, endSequence) pair after a batch of updates -/

/-- The represented `(transmit time, end-sequence offset)` pairs of the
inputs accepted by a sequence of `update` calls, in call order. -/
def acceptedPairs (offset : Nat) :
    rackControl → List (ackInput × Nat) → List (Int × Nat)
  | _, [] => []
  | rc, p :: t =>
    let rest :=
      acceptedPairs offset (update rc p.1.seg p.1.ack offset p.1.now) t
    if acceptedQ rc p.1.seg p.1.ack offset p.1.now then
      (p.1.seg.xmitTime, p.2) :: rest
    else rest

theorem acceptedPairs_cons (offset : Nat) (rc : rackControl)
    (p : ackInput × Nat) (t : List (ackInput × Nat)) :
    acceptedPairs offset rc (p :: t) =
      (if acceptedQ rc p.1.seg p.1.ack offset p.1.now then
        (p.1.seg.xmitTime, p.2) ::
          acceptedPairs offset (update rc p.1.seg p.1.ack offset p.1.now) t
      else acceptedPairs offset (update rc p.1.seg p.1.ack offset p.1.now) t) :=
  rfl

/-- Closed form of the `(xmitTime, endSequence)` pair over any sequence of
`update` calls: the `lmaxP` fold over the pairs of the accepted inputs,
from the initial pair. -/
theorem applyUpdates_pair_closed (offset B : Nat) (rc : rackControl)
    (l : List (ackInput × Nat)) (de : Nat)
    (hwin : ∀ p ∈ l, endSeqOf p.1.seg = (B + p.2) % seqMod ∧ p.2 < halfSeq)
    (he : rc.endSequence = (B + de) % seqMod) (hde : de < halfSeq) :
    ((applyUpdates offset rc (l.map Prod.fst)).xmitTime,
      (applyUpdates offset rc (l.map Prod.fst)).endSequence) =
      (((acceptedPairs offset rc l).foldl lmaxP (rc.xmitTime, de)).1,
        (B + ((acceptedPairs offset rc l).foldl lmaxP
          (rc.xmitTime, de)).2) % seqMod) := by
  induction l generalizing rc de with
  | nil =>
    simp only [List.map_nil]
    exact Prod.ext rfl he
  | cons p t ih =>
    obtain ⟨hp1, hp2⟩ := hwin p (List.mem_cons_self p t)
    have happ : applyUpdates offset rc ((p :: t).map Prod.fst) =
        applyUpdates offset (update rc p.1.seg p.1.ack offset p.1.now)
          (t.map Prod.fst) := rfl
    by_cases hacc : acceptedQ rc p.1.seg p.1.ack offset p.1.now
    · have hrepr := update_pair_repr B rc p.1.seg p.1.ack offset p.1.now hacc
        p.2 de hp1 hp2 he hde
      have hend : (update rc p.1.seg p.1.ack offset p.1.now).endSequence =
          (B + (lmaxP (rc.xmitTime, de) (p.1.seg.xmitTime, p.2)).2) %
            seqMod := congrArg Prod.snd hrepr
      have hx : (update rc p.1.seg p.1.ack offset p.1.now).xmitTime =
          (lmaxP (rc.xmitTime, de) (p.1.seg.xmitTime, p.2)).1 :=
        congrArg Prod.fst hrepr
      have hmk : ((update rc p.1.seg p.1.ack offset p.1.now).xmitTime,
          (lmaxP (rc.xmitTime, de) (p.1.seg.xmitTime, p.2)).2) =
          lmaxP (rc.xmitTime, de) (p.1.seg.xmitTime, p.2) := by
        rw [hx]
      rw [happ, acceptedPairs_cons, if_pos hacc, List.foldl_cons]
      exact (ih (update rc p.1.seg p.1.ack offset p.1.now)
          (lmaxP (rc.xmitTime, de) (p.1.seg.xmitTime, p.2)).2
          (fun q hq => hwin q (List.mem_cons_of_mem p hq)) hend
          (lmaxP_snd_lt (rc.xmitTime, de) (p.1.seg.xmitTime, p.2) hde
            hp2)).trans
        (by rw [hmk])
    · rw [happ, acceptedPairs_cons, if_neg hacc,
        update_rejected rc p.1.seg p.1.ack offset p.1.now hacc]
      exact ih rc de (fun q hq => hwin q (List.mem_cons_of_mem p hq)) he hde

/-- **C6 (amended)** Provided the end sequences in play lie in a common
half-window of the sequence ring (so that "larger in modular order" is
unambiguous), after a batch of `update` calls `(xmitTime, endSequence)`
equals the lexicographic maximum — latest transmit time, ties toward the
larger end-sequence offset — of the initial pair together with the
accepted segments' pairs (the initial pair can win, which the claim
ignores; see the counterexample); and an accepted call writes the pair
exactly when the segment's transmit time is strictly later than `xmitTime`
or equal to it with end sequence modularly above `endSequence`. -/
theorem rack_C6_latest_pair (offset B : Nat) (rc : rackControl)
    (l : List (ackInput × Nat)) (de : Nat)
    (hwin : ∀ p ∈ l, endSeqOf p.1.seg = (B + p.2) % seqMod ∧ p.2 < halfSeq)
    (he : rc.endSequence = (B + de) % seqMod) (hde : de < halfSeq) :
    (((applyUpdates offset rc (l.map Prod.fst)).xmitTime,
        (applyUpdates offset rc (l.map Prod.fst)).endSequence) =
      (((acceptedPairs offset rc l).foldl lmaxP (rc.xmitTime, de)).1,
        (B + ((acceptedPairs offset rc l).foldl lmaxP
          (rc.xmitTime, de)).2) % seqMod)) ∧
    (∀ seg ackSeg now, acceptedQ rc seg ackSeg offset now →
      ((update rc seg ackSeg offset now).xmitTime,
        (update rc seg ackSeg offset now).endSequence) =
        (if rc.xmitTime < seg.xmitTime ∨
            (seg.xmitTime = rc.xmitTime ∧ seqLt rc.endSequence (endSeqOf seg))
          then (seg.xmitTime, endSeqOf seg)
          else (rc.xmitTime, rc.endSequence))) :=
  ⟨applyUpdates_pair_closed offset B rc l de hwin he hde,
    fun seg ackSeg now hacc => update_pair_step rc seg ackSeg offset now hacc⟩

/-- Witness for the amended C6 at a concrete state and batch. -/
theorem rack_C6_latest_pair_witness :
    let rc0 : rackControl := ⟨false, 0, 0, 0, 0, false, 0⟩
    let p : ackInput × Nat := (⟨⟨0, 1, 0, 1⟩, ⟨false, 0⟩, 1⟩, 1)
    (((applyUpdates 0 rc0 ([p].map Prod.fst)).xmitTime,
        (applyUpdates 0 rc0 ([p].map Prod.fst)).endSequence) =
      (((acceptedPairs 0 rc0 [p]).foldl lmaxP (rc0.xmitTime, 0)).1,
        (0 + ((acceptedPairs 0 rc0 [p]).foldl lmaxP
          (rc0.xmitTime, 0)).2) % seqMod)) ∧
    (∀ seg ackSeg now, acceptedQ rc0 seg ackSeg 0 now →
      ((update rc0 seg ackSeg 0 now).xmitTime,
        (update rc0 seg ackSeg 0 now).endSequence) =
        (if rc0.xmitTime < seg.xmitTime ∨
            (seg.xmitTime = rc0.xmitTime ∧
              seqLt rc0.endSequence (endSeqOf seg))
          then (seg.xmitTime, endSeqOf seg)
          else (rc0.xmitTime, rc0.endSequence))) :=
  rack_C6_latest_pair 0 0 ⟨false, 0, 0, 0, 0, false, 0⟩
    [(⟨⟨0, 1, 0, 1⟩, ⟨false, 0⟩, 1⟩, 1)] 0 (by decide) (by decide) (by decide)

/-- **C6 (counterexample)** From a reachable state whose
`(xmitTime, endSequence)` pair is `(10, 100)`, a batch with exactly one
accepted segment — transmit time 5, end sequence 50 — leaves the pair at
`(10, 100)`: the final pair is not that of the accepted segment with the
latest transmit time, contrary to the claim. -/
theorem rack_C6_counterexample :
    let rc0 : rackControl := ⟨false, 0, 0, 0, 0, false, 0⟩
    let rc : rackControl := ⟨false, 100, 0, 0, 0, false, 10⟩
    let i : ackInput := ⟨⟨0, 50, 5, 1⟩, ⟨false, 0⟩, 6⟩
    update rc0 ⟨50, 50, 10, 1⟩ ⟨false, 0⟩ 0 10 = rc ∧
    acceptedSamples 0 rc [i] = [1] ∧
    (applyUpdates 0 rc [i]).xmitTime = 10 ∧
    (applyUpdates 0 rc [i]).endSequence = 100 ∧
    ((applyUpdates 0 rc [i]).xmitTime, (applyUpdates 0 rc [i]).endSequence) ≠
      (i.seg.xmitTime, endSeqOf i.seg) := by decide

end tcp
